import Mathlib

/-!
Shallow embedding of the mgit synchronization engine (SkadiRust/mgit).

The git binary is the sole effect boundary of the program: every driver
function launches `git` with a fixed argv and inspects the captured output.
We embed this by an environment (`GitEnv`) that maps an argv to the result
the subprocess would produce, together with a writer/except monad (`GitM`)
that records the trace of every `git` invocation.  Rust string methods
(`trim`, `lines`, `contains`, `split`, slicing) are re-implemented on
`List Char` by structural recursion so that all definitions evaluate by
kernel reduction.

Sources embedded:
  - src/core/src/core/git.rs        (git driver)
  - src/cli/src/config/repo.rs      (manifest model, comparator)
  - src/cli/src/commands/sync.rs    (per-repo state machine)
-/

namespace Mgit

/-! ## Rust string primitives, re-implemented on character lists -/

/-- Rust `char::is_whitespace` restricted to the ASCII whitespace that the
embedded code ever meets. -/
def isWs (c : Char) : Bool := c == ' ' || c == '\t' || c == '\r' || c == '\n'

/-- Rust `str::trim`: drop whitespace from both ends. -/
def rTrim (cs : List Char) : List Char :=
  ((cs.dropWhile isWs).reverse.dropWhile isWs).reverse

/-- Rust `str::trim` on `String`. -/
def strTrim (s : String) : String := String.mk (rTrim s.data)

/-- Does `cs` start with the pattern `pat`? -/
def startsWithSeq : List Char → List Char → Bool
  | _, [] => true
  | [], _ :: _ => false
  | c :: cs, d :: ds => c == d && startsWithSeq cs ds

/-- Is `pat` a contiguous subsequence of `cs`?  Mirrors Rust
`str::contains` on the character level. -/
def listContains (cs pat : List Char) : Bool :=
  (List.range (cs.length + 1)).any fun i => startsWithSeq (cs.drop i) pat

/-- Rust `str::contains`. -/
def strContains (s pat : String) : Bool := listContains s.data pat.data

/-- Rust `str::split(sep).next()`: the text before the first occurrence of
`sep` (the whole string when `sep` does not occur; empty when `sep` is
empty, as Rust splits with an empty pattern). -/
def splitFirst : List Char → List Char → List Char
  | [], _ => []
  | c :: cs, pat =>
    if startsWithSeq (c :: cs) pat then [] else c :: splitFirst cs pat

/-- Split a character list at every newline, keeping empty segments. -/
def splitNl : List Char → List (List Char)
  | [] => [[]]
  | c :: cs =>
    if c == '\n' then [] :: splitNl cs
    else
      match splitNl cs with
      | [] => [[c]]
      | l :: ls => (c :: l) :: ls

/-- Drop one trailing carriage return, as Rust `str::lines` does. -/
def stripCr (l : List Char) : List Char :=
  match l.getLast? with
  | some c => if c == '\r' then l.dropLast else l
  | none => l

/-- Rust `str::lines`: split on newline, drop a final empty segment
produced by a trailing newline, strip one trailing CR per line. -/
def rustLines (s : String) : List String :=
  let ps := splitNl s.data
  let ps := match ps.getLast? with
    | some [] => ps.dropLast
    | _ => ps
  ps.map fun l => String.mk (stripCr l)

/-- Rust `str::split("\n")`: every segment kept. -/
def splitNlStr (s : String) : List String := (splitNl s.data).map String.mk

/-- Rust byte slice `&s[..n]` as used on 7-character commit shas. -/
def strTake (s : String) (n : Nat) : String := String.mk (s.data.take n)

/-- Rust `str::is_empty`. -/
def strIsEmpty (s : String) : Bool := s.data.isEmpty

/-! ## Data model (src/core/src/core/git.rs, src/cli/src/config/repo.rs) -/

inductive StashMode
  | Normal
  | Stash
  | Hard
deriving DecidableEq

inductive ResetType
  | Soft
  | Mixed
  | Hard
deriving DecidableEq

inductive RemoteRef
  | Commit (s : String)
  | Tag (s : String)
  | Branch (s : String)
deriving DecidableEq

/-- `TomlRepo` from src/cli/src/config/repo.rs.  The Rust field `local` is
a Lean keyword and is embedded as `localPath`. -/
structure TomlRepo where
  localPath : Option String
  remote : Option String
  branch : Option String
  tag : Option String
  commit : Option String
deriving DecidableEq

/-- Errors produced by the embedded code.  Each constructor stands for one
of the literal `anyhow` messages of the source: `cmdFailed` carries the
stderr of a failed subprocess, `repositoryNotFound` is
"repository not found!", `remoteNotFound` is
`StyleMessage::git_remote_not_found`, `remoteUrlNull` is
"remote url is null.", `remoteRefInvalid` is "remote ref is invalid!",
`currentBranchNotFound` is "current branch not found.", `wrapped` is an
`anyhow` context layer around an inner error, `panicked` models an
`Option::unwrap` on `None`, and `createDirFailed` a failing
`fs::create_dir_all`. -/
inductive GitError
  | cmdFailed (stderr : String)
  | repositoryNotFound
  | remoteNotFound (s : String)
  | remoteUrlNull
  | remoteRefInvalid
  | currentBranchNotFound
  | createDirFailed
  | panicked (s : String)
  | wrapped (ctx : String) (inner : GitError)
deriving DecidableEq

/-! ## The effect environment and the trace monad -/

/-- The world the engine runs against, for a single repository directory:
`run` gives the outcome of launching `git` with a given argv inside that
directory (`Except.error` carries the stderr of a non-zero exit),
`gitDir` tells whether `<path>/.git` is a directory, `createDirOk`
whether `fs::create_dir_all` succeeds, and `fetchArgs` the argument tail
the fetch helper uses (see `exec_fetch_with_progress`). -/
structure GitEnv where
  run : List String → Except String String
  gitDir : Bool
  createDirOk : Bool
  fetchArgs : List String

/-- Computation over the environment returning a value or a `GitError`,
recording the argv of every launched `git` subprocess. -/
def GitM (α : Type) := GitEnv → Except GitError α × List (List String)

def GitM.pure (a : α) : GitM α := fun _ => (.ok a, [])

def GitM.bind (m : GitM α) (f : α → GitM β) : GitM β := fun env =>
  match m env with
  | (.ok a, t) =>
    match f a env with
    | (r, t2) => (r, t ++ t2)
  | (.error e, t) => (.error e, t)

instance : Monad GitM where
  pure := GitM.pure
  bind := GitM.bind

def GitM.throw (e : GitError) : GitM α := fun _ => (.error e, [])

/-- Run a sub-computation, capturing its outcome instead of propagating a
failure (the Rust idiom of keeping a `Result` value around). -/
def GitM.attempt (m : GitM α) : GitM (Except GitError α) := fun env =>
  match m env with
  | (r, t) => (.ok r, t)

def GitM.ofExcept : Except GitError α → GitM α
  | .ok a => GitM.pure a
  | .error e => GitM.throw e

/-- `exec_cmd(path, "git", args)`: launch git, record the argv, map a
non-zero exit to `cmdFailed` with the captured stderr. -/
def execCmd (args : List String) : GitM String := fun env =>
  match env.run args with
  | .ok out => (.ok out, [args])
  | .error e => (.error (.cmdFailed e), [args])

/-! ## Git driver (src/core/src/core/git.rs) -/

/-- `is_repository`: `path/.git` must be a directory and
`git rev-parse --show-cdup` must print nothing. -/
def is_repository : GitM Unit := fun env =>
  if env.gitDir then
    match execCmd ["rev-parse", "--show-cdup"] env with
    | (.ok out, t) =>
      if strIsEmpty (strTrim out) then (.ok (), t)
      else (.error .repositoryNotFound, t)
    | (.error _, t) => (.error .repositoryNotFound, t)
  else (.error .repositoryNotFound, [])

/-- Scan the lines of `git remote -v` for the first line containing the
url and return the text before the url, trimmed. -/
def findNameInLines (url : String) : List String → Option String
  | [] => none
  | line :: rest =>
    if strContains line url then
      some (strTrim (String.mk (splitFirst line.data url.data)))
    else findNameInLines url rest

/-- `find_remote_name_by_url`. -/
def find_remote_name_by_url (url : String) : GitM String := do
  is_repository
  let out ← execCmd ["remote", "-v"]
  match findNameInLines url (rustLines (strTrim out)) with
  | some name => GitM.pure name
  | none => GitM.throw (.remoteNotFound url)

/-- `is_remote_ref_valid`: `git branch --contains <ref> -r` must exit 0. -/
def is_remote_ref_valid (remote_ref : String) : GitM Unit := fun env =>
  match execCmd ["branch", "--contains", remote_ref, "-r"] env with
  | (.ok _, t) => (.ok (), t)
  | (.error _, t) => (.error (.remoteNotFound remote_ref), t)

/-- `get_tracking_branch`. -/
def get_tracking_branch : GitM String := do
  is_repository
  let out ← execCmd ["rev-parse", "--symbolic-full-name", "--abbrev-ref", "@{u}"]
  if !strIsEmpty (strTrim out) then GitM.pure (strTrim out)
  else GitM.throw (.cmdFailed "untracked.")

/-- The per-line check of `get_current_branch`: for each candidate line,
run `git branch -l <line>` and accept the candidate when the output
contains it. -/
def gcbLoop : List String → GitM String
  | [] => GitM.throw .currentBranchNotFound
  | line :: rest => do
    let branch_output ← execCmd ["branch", "-l", line]
    if strContains branch_output line then GitM.pure line
    else gcbLoop rest

/-- `get_current_branch`: `git branch --show-current`, then verify each
line of the trimmed output against `git branch -l`. -/
def get_current_branch : GitM String := do
  is_repository
  let out ← execCmd ["branch", "--show-current"]
  gcbLoop (rustLines (strTrim out))

/-- `get_branch_log`: never fails, empty on error. -/
def get_branch_log (branch : String) : GitM String := fun env =>
  match execCmd ["show-branch", "--sha1-name", branch] env with
  | (.ok out, t) => (.ok (strTrim out), t)
  | (.error _, t) => (.ok "", t)

def get_untrack_files : GitM String :=
  execCmd ["ls-files", ".", "--exclude-standard", "--others"]

def get_changed_files : GitM String := execCmd ["diff", "--name-only"]

def get_staged_files : GitM String := execCmd ["diff", "--cached", "--name-only"]

def get_rev_list_count (branch_pair : String) : GitM String :=
  execCmd ["rev-list", "--count", "--left-right", branch_pair]

/-- `init`: `git init -b master` (fixed initial branch name). -/
def init : GitM Unit := do
  let _ ← execCmd ["init", "-b", "master"]
  GitM.pure ()

/-- `add_remote_url`: `git remote add origin <url>`. -/
def add_remote_url (url : String) : GitM Unit := do
  let _ ← execCmd ["remote", "add", "origin", url]
  GitM.pure ()

/-- `clean`: `git clean -fd`. -/
def clean : GitM Unit := do
  let _ ← execCmd ["clean", "-fd"]
  GitM.pure ()

/-- `reset`: `git reset <type> <ref>`, re-wrapping a failure in the
"Error: .." format of the source. -/
def reset (reset_type remote_ref : String) : GitM Unit := fun env =>
  match execCmd ["reset", reset_type, remote_ref] env with
  | (.ok _, t) => (.ok (), t)
  | (.error e, t) => (.error (.wrapped "Error" e), t)

/-- `add_untracked_files`: list untracked files, then `git add` them. -/
def add_untracked_files : GitM String := do
  let paths_desc ← execCmd ["ls-files", "-o", "--exclude-standard"]
  if strIsEmpty paths_desc then
    GitM.pure "not found any unchecked file to add"
  else
    execCmd ("add" :: splitNlStr (strTrim paths_desc))

/-- `stash`: stage untracked files, then `git stash -u`; the returned
string is the stash output (containing "WIP" when something was stashed). -/
def stash : GitM String := do
  let _ ← add_untracked_files
  execCmd ["stash", "-u"]

/-- `stash_pop`: `git stash pop`. -/
def stash_pop : GitM String := execCmd ["stash", "pop"]

/-- `local_branch_already_exist`: the trimmed `git branch -l <branch>`
output must contain the branch name as a substring. -/
def local_branch_already_exist (branch : String) : GitM Bool := do
  let out ← execCmd ["branch", "-l", branch]
  GitM.pure (strContains (strTrim out) branch)

/-- `checkout`: run git with a caller-supplied argv. -/
def checkout (args : List String) : GitM Unit := do
  let _ ← execCmd args
  GitM.pure ()

/-! ## Manifest model (src/cli/src/config/repo.rs) -/

/-- `TomlRepo::get_remote_name`. -/
def TomlRepo.get_remote_name (repo : TomlRepo) : GitM String :=
  match repo.remote with
  | none => GitM.throw .remoteUrlNull
  | some url => find_remote_name_by_url url

/-- `TomlRepo::get_remote_ref`: the remote name is looked up first, then
the target is chosen by the commit/tag/branch precedence. -/
def TomlRepo.get_remote_ref (repo : TomlRepo) : GitM RemoteRef := do
  let remote_name ← repo.get_remote_name
  match repo.commit with
  | some commit => GitM.pure (.Commit commit)
  | none =>
    match repo.tag with
    | some tag => GitM.pure (.Tag tag)
    | none =>
      match repo.branch with
      | some branch => GitM.pure (.Branch (remote_name ++ "/" ++ branch))
      | none => GitM.throw .remoteRefInvalid

/-- The `remote_ref_str` match repeated throughout the source. -/
def remote_ref_string : RemoteRef → String
  | .Commit commit => commit
  | .Tag tag => tag
  | .Branch branch => branch

/-- The `remote_desc` match of the comparator: a commit is shortened to
its first seven characters. -/
def remote_ref_desc : RemoteRef → String
  | .Commit commit => strTake commit 7
  | .Tag tag => tag
  | .Branch branch => branch

/-- `if None == toml_repo.branch { toml_repo.branch = default_branch }`. -/
def withDefaultBranch (repo : TomlRepo) (default_branch : Option String) : TomlRepo :=
  if repo.branch = none then
    ⟨repo.localPath, repo.remote, default_branch, repo.tag, repo.commit⟩
  else repo

/-! ## Message formatting (src/cli/src/utils/logger.rs, not among the
sources; modelled from the spec) -/

/-- Modelled from the spec: `logger::fmt_changes_desc` renders a
"changes" fragment noting the file count (src/cli/src/utils/logger.rs is
not among the sources). -/
def fmt_changes_desc (n : Nat) : String := toString n ++ " changes"

/-- Modelled from the spec: `logger::fmt_commit_desc` renders the
"ahead N, behind M" fragment (src/cli/src/utils/logger.rs is not among
the sources). -/
def fmt_commit_desc (ahead behind : String) : String :=
  "ahead " ++ ahead ++ ", behind " ++ behind

/-- Modelled from the spec: `logger::fmt_unknown_revision_desc` renders
the "unknown revision" fragment (src/cli/src/utils/logger.rs is not
among the sources). -/
def fmt_unknown_revision_desc : String := "unknown revision"

/-- Modelled from the spec: `logger::fmt_update_to_date_desc` renders the
up-to-date summary with a short branch log; per
src/cli/src/commands/sync.rs it contains the literal
"already update to date." (src/cli/src/utils/logger.rs is not among the
sources). -/
def fmt_update_to_date_desc (branch_log : String) : String :=
  "already update to date. " ++ branch_log

/-- Modelled from the spec: `logger::fmt_diff_desc` renders
"remote_desc: commit fragment, changes fragment"
(src/cli/src/utils/logger.rs is not among the sources). -/
def fmt_diff_desc (remote_desc commit_desc changes_desc : String) : String :=
  remote_desc ++ ": " ++ commit_desc ++
    (if strIsEmpty changes_desc then "" else ", " ++ changes_desc)

/-! ## The rev-list regex `(\d+)\s*(\d+)` (leftmost-first captures) -/

/-- Try to match `(\d+)\s*(\d+)` at the start of `cs`, with the greedy
backtracking of the regex engine: the second group preferentially comes
after the whitespace run; otherwise the first digit run is split. -/
def matchCapsAt (cs : List Char) : Option (List Char × List Char) :=
  match cs with
  | [] => none
  | c :: _ =>
    if c.isDigit then
      let d := cs.takeWhile Char.isDigit
      let rest1 := cs.dropWhile Char.isDigit
      let rest2 := rest1.dropWhile isWs
      let e := rest2.takeWhile Char.isDigit
      if !e.isEmpty then some (d, e)
      else if 2 ≤ d.length then some (d.dropLast, d.drop (d.length - 1))
      else none
    else none

/-- Leftmost match of `(\d+)\s*(\d+)`, as `Regex::captures`. -/
def findCaps : List Char → Option (List Char × List Char)
  | [] => none
  | c :: rest =>
    match matchCapsAt (c :: rest) with
    | some r => some r
    | none => findCaps rest

/-- The two capture groups of `(\d+)\s*(\d+)` over a string, when the
regex matches. -/
def revListCaps (s : String) : Option (String × String) :=
  (findCaps s.data).map fun p => (String.mk p.1, String.mk p.2)

/-! ## Comparator (`cmp_local_remote`, src/cli/src/config/repo.rs) -/

/-- `HashSet::insert`: the set is modelled as a duplicate-free list, only
its cardinality is consumed. -/
def insertFile (files : List String) (f : String) : List String :=
  if f ∈ files then files else files ++ [f]

/-- Insert every line of a trimmed output block into the set. -/
def insertLines (files : List String) (out : String) : List String :=
  (rustLines (strTrim out)).foldl insertFile files

/-- The ref-string/description pair the comparator starts from: the
tracking branch twice when `use_tracking_remote`, else the resolved
`RemoteRef` rendered by `remote_ref_string` and `remote_ref_desc`. -/
def cmpRemotePair (toml_repo : TomlRepo) (use_tracking_remote : Bool) :
    GitM (String × String) :=
  if use_tracking_remote then do
    let remote_ref_str ← get_tracking_branch
    GitM.pure (remote_ref_str, remote_ref_str)
  else do
    let remote_ref ← toml_repo.get_remote_ref
    GitM.pure (remote_ref_string remote_ref, remote_ref_desc remote_ref)

/-- `cmp_local_remote`: the read-only divergence summary of one repo. -/
def cmp_local_remote (toml_repo : TomlRepo) (default_branch : Option String)
    (use_tracking_remote : Bool) : GitM (Option String) := do
  let toml_repo := withDefaultBranch toml_repo default_branch
  let pair ← cmpRemotePair toml_repo use_tracking_remote
  let remote_ref_str := pair.1
  let remote_desc := pair.2
  if strIsEmpty remote_desc then GitM.pure (some "not tracking")
  else do
    let r1 ← GitM.attempt get_untrack_files
    let changed := match r1 with
      | .ok out => insertLines [] out
      | .error _ => []
    let r2 ← GitM.attempt get_changed_files
    let changed := match r2 with
      | .ok out => insertLines changed out
      | .error _ => changed
    let r3 ← GitM.attempt get_staged_files
    let changed := match r3 with
      | .ok out => insertLines changed out
      | .error _ => changed
    let changes_desc := if !changed.isEmpty then fmt_changes_desc changed.length else ""
    let branch ← get_current_branch
    if strIsEmpty branch then GitM.pure (some "init commit")
    else do
      let branch_pair := branch ++ "..." ++ remote_ref_str
      let rl ← GitM.attempt (get_rev_list_count branch_pair)
      let commit_desc := match rl with
        | .ok out =>
          match revListCaps out with
          | some caps => fmt_commit_desc caps.1 caps.2
          | none => ""
        | .error _ => fmt_unknown_revision_desc
      if strIsEmpty commit_desc && strIsEmpty changes_desc then do
        let branch_log ← get_branch_log branch
        GitM.pure (some (fmt_update_to_date_desc branch_log))
      else
        GitM.pure (some (fmt_diff_desc remote_desc commit_desc changes_desc))

/-! ## Per-repo state machine (src/cli/src/commands/sync.rs) -/

/-- The flag-to-mode selection of `sync::exec` (src/cli/src/commands/sync.rs
lines 49-59): giving both flags is an argument conflict and the process
exits before any repository is touched. -/
def select_stash_mode (stash hard : Bool) : Except String StashMode :=
  match stash, hard with
  | false, false => .ok .Normal
  | true, false => .ok .Stash
  | false, true => .ok .Hard
  | true, true => .error "ArgumentConflict: --stash and --hard used together"

def exec_init_with_progress : GitM Unit := init

def exec_add_remote_with_progress (toml_repo : TomlRepo) : GitM Unit :=
  match toml_repo.remote with
  | some url => add_remote_url url
  | none => GitM.throw (.panicked "remote is None")

def exec_clean_with_progress : GitM Unit := clean

def exec_stash_with_progress : GitM String := stash

def exec_stash_pop_with_progress : GitM String := stash_pop

/-- `exec_reset_with_progress`: resolve the remote ref again, then reset. -/
def exec_reset_with_progress (toml_repo : TomlRepo) (reset_type : ResetType) :
    GitM Unit := do
  let remote_ref ← toml_repo.get_remote_ref
  let remote_ref_str := remote_ref_string remote_ref
  let ty := match reset_type with
    | .Soft => "--soft"
    | .Mixed => "--mixed"
    | .Hard => "--hard"
  reset ty remote_ref_str

/-- The branch-display name of `exec_checkout_with_progress`:
`commits/<sha[:7]>` for a commit, `tags/<t>` for a tag, the declared
branch (or the literal `invalid-branch`) for a branch target. -/
def branch_display (toml_repo : TomlRepo) : RemoteRef → String
  | .Commit commit => "commits/" ++ strTake commit 7
  | .Tag tag => "tags/" ++ tag
  | .Branch _ => toml_repo.branch.getD "invalid-branch"

/-- `exec_checkout_with_progress`: resolve the ref, compute the branch
display name, short-circuit when the current branch already matches, else
choose the argv by (local branch exists, force). -/
def exec_checkout_with_progress (toml_repo : TomlRepo) (force : Bool) :
    GitM Unit := do
  let remote_ref ← toml_repo.get_remote_ref
  let remote_ref_str := remote_ref_string remote_ref
  let branch := branch_display toml_repo remote_ref
  let cb ← GitM.attempt get_current_branch
  let short := match cb with
    | .ok current => branch == current
    | .error _ => false
  if short then GitM.pure ()
  else do
    let branch_exist ← local_branch_already_exist branch
    let args := match branch_exist, force with
      | false, false => ["checkout", "-B", branch, remote_ref_str, "--no-track"]
      | false, true => ["checkout", "-B", branch, remote_ref_str, "--no-track", "-f"]
      | true, false => ["checkout", branch]
      | true, true => ["checkout", "-B", branch, "-f"]
    checkout args

/-- Modelled from the spec: `exec_fetch_with_progress` lives in
src/cli/src/commands/fetch.rs, which is not among the sources.  Per spec
section 4.D.8 it invokes `git fetch <remote_name>` (or `--all`), appending
`--depth <N>` when the caller supplied a depth, and a fetch failure is
fatal for that repo.  It is modelled as a single driver invocation whose
argument tail (remote name or `--all`, plus depth) is supplied by the
environment. -/
def exec_fetch_with_progress : GitM Unit := do
  let env ← (fun env => (.ok env, []) : GitM GitEnv)
  let _ ← execCmd ("fetch" :: env.fetchArgs)
  GitM.pure ()

/-- The `StashMode::Normal` arm of `exec_sync_with_progress`
(src/cli/src/commands/sync.rs lines 346-391). -/
def syncNormal (toml_repo : TomlRepo) (no_checkout : Bool) : GitM Unit := do
  if !no_checkout then do
    let stash_result ← GitM.attempt exec_stash_with_progress
    let stash_message := match stash_result with
      | .ok m => m
      | .error _ => "stash failed."
    let result0 ← GitM.attempt (exec_checkout_with_progress toml_repo false)
    let result ← match result0 with
      | .ok _ => GitM.attempt (exec_reset_with_progress toml_repo .Hard)
      | .error e => GitM.pure (Except.error e)
    if strContains stash_message "WIP" then do
      let _ ← GitM.attempt exec_stash_pop_with_progress
      GitM.ofExcept result
    else GitM.ofExcept result
  else exec_reset_with_progress toml_repo .Soft

/-- `anyhow` `with_context`: wrap a failure, keep a success. -/
def withCtx (msg : String) : Except GitError α → Except GitError α
  | .ok a => .ok a
  | .error e => .error (.wrapped msg e)

/-- The `StashMode::Stash` arm of `exec_sync_with_progress`
(src/cli/src/commands/sync.rs lines 392-432). -/
def syncStash (toml_repo : TomlRepo) (no_checkout : Bool) : GitM Unit := do
  let stash_result ← GitM.attempt exec_stash_with_progress
  let stash_message := match stash_result with
    | .ok m => m
    | .error _ => "stash failed."
  let pair ←
    if !no_checkout then do
      let r ← GitM.attempt (exec_checkout_with_progress toml_repo true)
      GitM.pure (withCtx stash_message r, ResetType.Hard)
    else GitM.pure (Except.ok (), ResetType.Mixed)
  let result ← match pair.1 with
    | .ok _ => do
      let r ← GitM.attempt (exec_reset_with_progress toml_repo pair.2)
      GitM.pure (withCtx stash_message r)
    | .error e => GitM.pure (Except.error e)
  match result with
  | .error e =>
    if strContains stash_message "WIP" then do
      let _ ← GitM.attempt exec_stash_pop_with_progress
      GitM.throw e
    else GitM.throw e
  | .ok _ => GitM.pure ()

/-- The `StashMode::Hard` arm of `exec_sync_with_progress`
(src/cli/src/commands/sync.rs lines 433-451). -/
def syncHard (toml_repo : TomlRepo) (no_checkout : Bool) : GitM Unit := do
  exec_clean_with_progress
  if !no_checkout then exec_checkout_with_progress toml_repo true
  else GitM.pure ()
  exec_reset_with_progress toml_repo .Hard

/-- `fs::create_dir_all(full_path)` with its context message. -/
def ensureDir : GitM Unit := fun env =>
  if env.createDirOk then (.ok (), []) else (.error .createDirFailed, [])

/-- The tail of `exec_sync_with_progress` after the fetch: resolve and
validate the remote ref, then run the arm of the (effective) stash
mode. -/
def syncAfterFetch (toml_repo : TomlRepo) (stash_mode : StashMode)
    (no_checkout : Bool) : GitM Unit := do
  let remote_ref ← toml_repo.get_remote_ref
  let remote_ref_str := remote_ref_string remote_ref
  is_remote_ref_valid remote_ref_str
  match stash_mode with
  | .Normal => syncNormal toml_repo no_checkout
  | .Stash => syncStash toml_repo no_checkout
  | .Hard => syncHard toml_repo no_checkout

/-- `exec_sync_with_progress` (src/cli/src/commands/sync.rs lines
295-452): directory creation, repository discovery (forcing `Hard` and
running init + remote add when absent), branch defaulting, fetch, ref
resolution and validation, then the stash-mode arm. -/
def exec_sync_with_progress (toml_repo : TomlRepo) (stash_mode : StashMode)
    (no_checkout : Bool) (default_branch : Option String) : GitM Unit := do
  ensureDir
  let repoCheck ← GitM.attempt is_repository
  let is_repo_none := match repoCheck with
    | .ok _ => false
    | .error _ => true
  let stash_mode := if is_repo_none then StashMode.Hard else stash_mode
  if is_repo_none then do
    exec_init_with_progress
    exec_add_remote_with_progress toml_repo
  else GitM.pure ()
  let toml_repo := withDefaultBranch toml_repo default_branch
  exec_fetch_with_progress
  syncAfterFetch toml_repo stash_mode no_checkout

/-! ## Run lemmas for the trace monad -/

instance [DecidableEq ε] [DecidableEq α] : DecidableEq (Except ε α)
  | .ok a, .ok b =>
    if h : a = b then .isTrue (congrArg Except.ok h)
    else .isFalse fun hc => h (Except.ok.inj hc)
  | .ok _, .error _ => .isFalse fun hc => Except.noConfusion hc
  | .error _, .ok _ => .isFalse fun hc => Except.noConfusion hc
  | .error e, .error f =>
    if h : e = f then .isTrue (congrArg Except.error h)
    else .isFalse fun hc => h (Except.error.inj hc)

@[simp]
theorem pure_run (a : α) (env : GitEnv) : (GitM.pure a : GitM α) env = (.ok a, []) := rfl

@[simp]
theorem monad_pure_run (a : α) (env : GitEnv) : (pure a : GitM α) env = (.ok a, []) := rfl

@[simp]
theorem throw_run (e : GitError) (env : GitEnv) :
    (GitM.throw e : GitM α) env = (.error e, []) := rfl

theorem bind_run (m : GitM α) (f : α → GitM β) (env : GitEnv) :
    (m >>= f) env =
      match m env with
      | (.ok a, t) => ((f a env).1, t ++ (f a env).2)
      | (.error e, t) => (.error e, t) := by
  show GitM.bind m f env = _
  unfold GitM.bind
  rcases hm : m env with ⟨r, t⟩
  cases r with
  | ok a =>
    rcases hf : f a env with ⟨r2, t2⟩
    simp [hf]
  | error e => rfl

theorem bind_run_ok (m : GitM α) (f : α → GitM β) (env : GitEnv) (a : α)
    (t : List (List String)) (h : m env = (.ok a, t)) :
    (m >>= f) env = ((f a env).1, t ++ (f a env).2) := by
  rw [bind_run, h]

theorem bind_run_err (m : GitM α) (f : α → GitM β) (env : GitEnv) (e : GitError)
    (t : List (List String)) (h : m env = (.error e, t)) :
    (m >>= f) env = (.error e, t) := by
  rw [bind_run, h]

@[simp]
theorem attempt_run (m : GitM α) (env : GitEnv) :
    GitM.attempt m env = (.ok (m env).1, (m env).2) := by
  unfold GitM.attempt
  rcases hm : m env with ⟨r, t⟩
  rfl

@[simp]
theorem ofExcept_run_ok (a : α) (env : GitEnv) :
    (GitM.ofExcept (Except.ok a) : GitM α) env = (.ok a, []) := rfl

@[simp]
theorem ofExcept_run_err (e : GitError) (env : GitEnv) :
    (GitM.ofExcept (Except.error e) : GitM α) env = (.error e, []) := rfl

@[simp]
theorem execCmd_run (args : List String) (env : GitEnv) :
    execCmd args env =
      match env.run args with
      | .ok out => (.ok out, [args])
      | .error e => (.error (.cmdFailed e), [args]) := rfl

/-! ## C1 — remote-ref resolution precedence -/

/-- C1 (amended): `get_remote_ref` looks up the remote name by URL before
consulting any target field, so resolution can fail even when `commit` is
set; provided that lookup succeeds, the precedence commit > tag > branch
holds exactly as claimed, and with no target set the error is
"remote ref is invalid!". -/
theorem get_remote_ref_precedence (env : GitEnv) (repo : TomlRepo) (name : String)
    (h : (repo.get_remote_name env).1 = .ok name) :
    (repo.get_remote_ref env).1 =
      match repo.commit with
      | some commit => .ok (.Commit commit)
      | none =>
        match repo.tag with
        | some tag => .ok (.Tag tag)
        | none =>
          match repo.branch with
          | some branch => .ok (.Branch (name ++ "/" ++ branch))
          | none => .error .remoteRefInvalid := by
  unfold TomlRepo.get_remote_ref
  rcases hn : repo.get_remote_name env with ⟨rn, tn⟩
  rw [hn] at h
  simp only at h
  subst h
  rw [bind_run_ok _ _ _ _ _ hn]
  rcases repo.commit with _ | c
  · rcases repo.tag with _ | tg
    · rcases repo.branch with _ | b <;> simp
    · simp
  · simp

/-- Demo repository entry for C1: commit, tag and branch all set. -/
def repoC1 : TomlRepo :=
  ⟨some "foo", some "https://example.com/a.git", some "main", some "v1", some "abcdef1234"⟩

/-- An environment in which `<path>/.git` is not a directory, so
`is_repository` (and with it the remote-name lookup) fails. -/
def envNoRepo : GitEnv := ⟨fun _ => .error "", false, true, []⟩

/-- C1 counterexample: the claim says a set `commit` always resolves to
`Commit(commit)`, but with the remote-name lookup failing (no git
repository at the path) resolution errors instead. -/
theorem get_remote_ref_precedence_cex :
    repoC1.commit = some "abcdef1234" ∧
    (repoC1.get_remote_ref envNoRepo).1 = .error .repositoryNotFound := by
  exact ⟨rfl, rfl⟩

/-- Environment with a configured remote `origin` for the demo URL. -/
def envRemote : GitEnv :=
  ⟨fun args =>
    if args = ["rev-parse", "--show-cdup"] then .ok ""
    else if args = ["remote", "-v"] then
      .ok "origin\thttps://example.com/a.git (fetch)\norigin\thttps://example.com/a.git (push)"
    else .error "", true, true, []⟩

theorem get_remote_ref_precedence_witness :
    (repoC1.get_remote_name envRemote).1 = .ok "origin" ∧
    (repoC1.get_remote_ref envRemote).1 = .ok (.Commit "abcdef1234") :=
  ⟨by decide,
    (get_remote_ref_precedence envRemote repoC1 "origin" (by decide)).trans (by decide)⟩

/-! ## C8 — flag conflict and stash-mode selection -/

/-- C8: giving both `--stash` and `--hard` is an argument conflict
(the process exits before any repository is touched); otherwise no flag
means `Normal`, only `--stash` means `Stash`, only `--hard` means
`Hard`. -/
theorem select_stash_mode_spec :
    select_stash_mode true true =
      .error "ArgumentConflict: --stash and --hard used together" ∧
    select_stash_mode false false = .ok .Normal ∧
    select_stash_mode true false = .ok .Stash ∧
    select_stash_mode false true = .ok .Hard := by
  exact ⟨rfl, rfl, rfl, rfl⟩

/-! ## C10 — local_branch_already_exist substring semantics -/

/-- An environment whose only local branch is `master`; listing with the
query `mas` is modelled as printing that branch. -/
def envBranchDemo : GitEnv :=
  ⟨fun args =>
    if args = ["branch", "-l", "mas"] then .ok "  master\n" else .error "",
    true, true, []⟩

/-- C10: `local_branch_already_exist` returns true exactly when the
trimmed `git branch -l <branch>` output contains the branch as a
substring; consequently an output listing only the branch `master`
makes the query `mas` return true although no branch is named `mas`. -/
theorem local_branch_exist_substring :
    (∀ (env : GitEnv) (branch out : String),
      env.run ["branch", "-l", branch] = .ok out →
      (local_branch_already_exist branch env).1 =
        .ok (strContains (strTrim out) branch)) ∧
    ((local_branch_already_exist "mas" envBranchDemo).1 = .ok true ∧
      strTrim "  master\n" = "master" ∧ "master" ≠ "mas") := by
  constructor
  · intro env branch out h
    unfold local_branch_already_exist
    rw [bind_run_ok _ _ _ out [["branch", "-l", branch]]]
    · simp
    · simp [h]
  · exact ⟨by decide, by decide, by decide⟩

theorem local_branch_exist_substring_witness :
    envBranchDemo.run ["branch", "-l", "mas"] = .ok "  master\n" ∧
    (local_branch_already_exist "mas" envBranchDemo).1 =
      .ok (strContains (strTrim "  master\n") "mas") :=
  ⟨by decide,
    local_branch_exist_substring.1 envBranchDemo "mas" "  master\n" (by decide)⟩

/-! ## C2 — the Normal stash-mode arm -/

/-- C2: in `Normal` mode with `no_checkout` false the arm runs stash,
then a non-forced checkout, then (only if checkout succeeded) a
`reset --hard`; afterwards it pops the stash if and only if the stash
message contained "WIP", discarding any pop error; the returned outcome
is that of the checkout/reset, not of the stash or pop.  With
`no_checkout` true the arm is exactly `reset --soft`. -/
theorem sync_normal_spec (env : GitEnv) (repo : TomlRepo) :
    (syncNormal repo false env =
      (let s := exec_stash_with_progress env
       let msg := match s.1 with
         | .ok m => m
         | .error _ => "stash failed."
       let c := exec_checkout_with_progress repo false env
       let r : Except GitError Unit × List (List String) :=
         match c.1 with
         | .ok _ =>
           ((exec_reset_with_progress repo .Hard env).1,
             c.2 ++ (exec_reset_with_progress repo .Hard env).2)
         | .error e => (.error e, c.2)
       (r.1,
        s.2 ++ r.2 ++
          (if strContains msg "WIP" then (exec_stash_pop_with_progress env).2
           else [])))) ∧
    syncNormal repo true env = exec_reset_with_progress repo .Soft env := by
  constructor
  · rcases hs : exec_stash_with_progress env with ⟨sr, st⟩
    rcases hc : exec_checkout_with_progress repo false env with ⟨cr, ct⟩
    rcases hr : exec_reset_with_progress repo ResetType.Hard env with ⟨rr, rt⟩
    rcases hp : exec_stash_pop_with_progress env with ⟨pr, pt⟩
    simp only [syncNormal, Bool.not_false, if_true, bind_run, attempt_run, hs, hc,
      hr, hp, pure_run, monad_pure_run]
    cases sr with
    | ok m =>
      cases hW : strContains m "WIP" <;>
        cases cr <;>
          cases rr <;>
            simp [GitM.ofExcept, bind_run, hr, hp, hW, List.append_assoc]
    | error e =>
      have hW : strContains "stash failed." "WIP" = false := by decide
      cases cr <;>
        cases rr <;>
          simp [GitM.ofExcept, bind_run, hr, hp, hW, List.append_assoc]
  · simp [syncNormal]

/-! ## C3 — the Stash stash-mode arm -/

/-- C3: in `Stash` mode the arm attempts stash, treating a stash failure
as the recoverable message "stash failed."; with `no_checkout` false it
runs a forced checkout followed by `reset --hard`, with `no_checkout`
true it skips checkout and runs `reset --mixed`; on a checkout/reset
failure it pops the stash best-effort if and only if the stash message
contained "WIP" and surfaces the original checkout/reset error (wrapped
in the stash message as context). -/
theorem sync_stash_spec (env : GitEnv) (repo : TomlRepo) (no_checkout : Bool) :
    syncStash repo no_checkout env =
      (let s := exec_stash_with_progress env
       let msg := match s.1 with
         | .ok m => m
         | .error _ => "stash failed."
       let m : Except GitError Unit × List (List String) :=
         if no_checkout then exec_reset_with_progress repo .Mixed env
         else
           match (exec_checkout_with_progress repo true env).1 with
           | .ok _ =>
             ((exec_reset_with_progress repo .Hard env).1,
               (exec_checkout_with_progress repo true env).2 ++
                 (exec_reset_with_progress repo .Hard env).2)
           | .error e => (.error e, (exec_checkout_with_progress repo true env).2)
       match m.1 with
       | .ok _ => (Except.ok (), s.2 ++ m.2)
       | .error e =>
         (.error (.wrapped msg e),
          s.2 ++ m.2 ++
            (if strContains msg "WIP" then (exec_stash_pop_with_progress env).2
             else []))) := by
  rcases hs : exec_stash_with_progress env with ⟨sr, st⟩
  rcases hc : exec_checkout_with_progress repo true env with ⟨cr, ct⟩
  rcases hrh : exec_reset_with_progress repo ResetType.Hard env with ⟨rh, rht⟩
  rcases hrm : exec_reset_with_progress repo ResetType.Mixed env with ⟨rm, rmt⟩
  rcases hp : exec_stash_pop_with_progress env with ⟨pr, pt⟩
  have hWf : strContains "stash failed." "WIP" = false := by decide
  cases no_checkout with
  | false =>
    simp only [syncStash, Bool.not_false, if_true, bind_run, attempt_run, hs, hc,
      hrh, hrm, hp, pure_run, monad_pure_run]
    cases sr with
    | ok m =>
      cases hW : strContains m "WIP" <;>
        cases cr <;>
          cases rh <;>
            simp [withCtx, bind_run, hrh, hp, hW, List.append_assoc]
    | error e =>
      cases cr <;>
        cases rh <;>
          simp [withCtx, bind_run, hrh, hp, hWf, List.append_assoc]
  | true =>
    simp only [syncStash, Bool.not_true, Bool.false_eq_true, if_false, bind_run,
      attempt_run, hs, hc, hrh, hrm, hp, pure_run, monad_pure_run]
    cases sr with
    | ok m =>
      cases hW : strContains m "WIP" <;>
        cases rm <;>
          simp [withCtx, bind_run, hrm, hp, hW, List.append_assoc]
    | error e =>
      cases rm <;>
        simp [withCtx, bind_run, hrm, hp, hWf, List.append_assoc]

/-! ## C4 — absent repository forces Hard mode with init and remote add -/

theorem exec_fetch_run (env : GitEnv) :
    exec_fetch_with_progress env =
      ((match env.run ("fetch" :: env.fetchArgs) with
        | .ok _ => Except.ok ()
        | .error e => Except.error (.cmdFailed e)),
       [("fetch" :: env.fetchArgs)]) := by
  simp only [exec_fetch_with_progress, bind_run, execCmd_run]
  rcases env.run ("fetch" :: env.fetchArgs) with _ | _ <;> simp

/-- C4: when the local path is not yet a git repository, the state
machine behaves as if the caller had requested `Hard` mode (whatever mode
was requested), and its trace starts with the repository check, then
`git init -b master`, then `git remote add origin <url>`, and only then
the fetch. -/
theorem sync_forces_hard_when_not_repo (env : GitEnv) (repo : TomlRepo)
    (mode : StashMode) (no_checkout : Bool) (default_branch : Option String)
    (url oi oa : String)
    (hdir : env.createDirOk = true)
    (hrep : (is_repository env).1 = .error .repositoryNotFound)
    (hurl : repo.remote = some url)
    (hinit : env.run ["init", "-b", "master"] = .ok oi)
    (hadd : env.run ["remote", "add", "origin", url] = .ok oa) :
    exec_sync_with_progress repo mode no_checkout default_branch env =
      exec_sync_with_progress repo .Hard no_checkout default_branch env ∧
    (exec_sync_with_progress repo mode no_checkout default_branch env).2 =
      (is_repository env).2 ++
        [["init", "-b", "master"], ["remote", "add", "origin", url]] ++
        (exec_fetch_with_progress env).2 ++
        (match (exec_fetch_with_progress env).1 with
          | .ok _ =>
            (syncAfterFetch (withDefaultBranch repo default_branch) .Hard
              no_checkout env).2
          | .error _ => []) := by
  have hed : ensureDir env = (.ok (), []) := by simp [ensureDir, hdir]
  constructor
  · simp only [exec_sync_with_progress, bind_run, attempt_run, hed, hrep, if_true]
  · simp only [exec_sync_with_progress, bind_run, attempt_run, hed, hrep,
      exec_init_with_progress, init, exec_add_remote_with_progress, hurl,
      add_remote_url, execCmd_run, hinit, hadd, pure_run, monad_pure_run,
      exec_fetch_run, if_true]
    rcases hf : env.run ("fetch" :: env.fetchArgs) with e | o <;>
      simp [List.append_assoc]

/-- Demo entry and world for C4: no git repository at the path, and both
`git init -b master` and the remote add succeed. -/
def repoC4 : TomlRepo :=
  ⟨some "foo", some "https://example.com/a.git", none, none, some "abcdef1234"⟩

def envC4 : GitEnv :=
  ⟨fun args =>
    if args = ["init", "-b", "master"] then .ok ""
    else if args = ["remote", "add", "origin", "https://example.com/a.git"] then .ok ""
    else .error "", false, true, ["--all"]⟩

theorem sync_forces_hard_when_not_repo_witness :
    exec_sync_with_progress repoC4 .Normal false none envC4 =
      exec_sync_with_progress repoC4 .Hard false none envC4 ∧
    (exec_sync_with_progress repoC4 .Normal false none envC4).2 =
      (is_repository envC4).2 ++
        [["init", "-b", "master"],
          ["remote", "add", "origin", "https://example.com/a.git"]] ++
        (exec_fetch_with_progress envC4).2 ++
        (match (exec_fetch_with_progress envC4).1 with
          | .ok _ =>
            (syncAfterFetch (withDefaultBranch repoC4 none) .Hard false envC4).2
          | .error _ => []) :=
  sync_forces_hard_when_not_repo envC4 repoC4 .Normal false none
    "https://example.com/a.git" "" "" rfl rfl rfl (by decide) (by decide)

/-! ## C9 — the comparator is read-only -/

/-- The git commands that only inspect a repository: `rev-parse`,
`remote -v` (listing, not adding), `ls-files`, `diff`,
`branch --show-current`, `branch -l`, `rev-list`, `show-branch`.
Mutating commands (`init`, `remote add`, `fetch`, `stash`, `checkout`,
`reset`, `clean`, ...) are rejected. -/
def inspectionCmd (c : List String) : Bool :=
  match c with
  | "rev-parse" :: _ => true
  | ["remote", "-v"] => true
  | "ls-files" :: _ => true
  | "diff" :: _ => true
  | "branch" :: "--show-current" :: _ => true
  | "branch" :: "-l" :: _ => true
  | "rev-list" :: _ => true
  | "show-branch" :: _ => true
  | _ => false

/-- Every git invocation in the trace of `m` is an inspection command. -/
def ReadOnly (m : GitM α) : Prop :=
  ∀ (env : GitEnv) (c : List String), c ∈ (m env).2 → inspectionCmd c = true

@[simp]
theorem execCmd_trace (args : List String) (env : GitEnv) :
    (execCmd args env).2 = [args] := by
  cases h : env.run args <;> simp [execCmd_run, h]

theorem readOnly_pure (a : α) : ReadOnly (GitM.pure a) := by
  intro env c hc
  simp only [pure_run, List.not_mem_nil] at hc

theorem readOnly_mpure (a : α) : ReadOnly (pure a : GitM α) :=
  readOnly_pure a

theorem readOnly_throw (e : GitError) : ReadOnly (GitM.throw e : GitM α) := by
  intro env c hc
  simp only [throw_run, List.not_mem_nil] at hc

theorem readOnly_bind {m : GitM α} {f : α → GitM β} (hm : ReadOnly m)
    (hf : ∀ a, ReadOnly (f a)) : ReadOnly (m >>= f) := by
  intro env c hc
  rcases hme : m env with ⟨r, t⟩
  rw [bind_run, hme] at hc
  cases r with
  | ok a =>
    simp only [List.mem_append] at hc
    rcases hc with h | h
    · exact hm env c (by rw [hme]; exact h)
    · exact hf a env c h
  | error e => exact hm env c (by rw [hme]; exact hc)

theorem readOnly_attempt {m : GitM α} (hm : ReadOnly m) :
    ReadOnly (GitM.attempt m) := by
  intro env c hc
  simp only [attempt_run] at hc
  exact hm env c hc

theorem readOnly_ite (c : Prop) [Decidable c] {m m2 : GitM α}
    (h1 : ReadOnly m) (h2 : ReadOnly m2) : ReadOnly (if c then m else m2) := by
  by_cases hc : c
  · simpa [hc] using h1
  · simpa [hc] using h2

theorem readOnly_execCmd (args : List String) (h : inspectionCmd args = true) :
    ReadOnly (execCmd args) := by
  intro env c hc
  simp only [execCmd_run] at hc
  rcases hre : env.run args with e | o <;>
    · rw [hre] at hc
      simp only [List.mem_singleton] at hc
      subst hc
      exact h

theorem readOnly_is_repository : ReadOnly is_repository := by
  intro env c hc
  unfold is_repository at hc
  cases hgd : env.gitDir with
  | false =>
    rw [hgd] at hc
    simp at hc
  | true =>
    rw [hgd] at hc
    simp only [if_true] at hc
    rcases hre : execCmd ["rev-parse", "--show-cdup"] env with ⟨r, t⟩
    have ht : t = [["rev-parse", "--show-cdup"]] := by
      have h2 := execCmd_trace ["rev-parse", "--show-cdup"] env
      rw [hre] at h2
      exact h2
    rw [hre] at hc
    cases r with
    | ok o =>
      by_cases hts : strIsEmpty (strTrim o) = true <;>
        simp only [hts, if_true, if_false, Bool.false_eq_true] at hc <;>
        · rw [ht] at hc
          simp only [List.mem_singleton] at hc
          subst hc
          rfl
    | error e =>
      rw [ht] at hc
      simp only [List.mem_singleton] at hc
      subst hc
      rfl

theorem readOnly_find_remote_name (url : String) :
    ReadOnly (find_remote_name_by_url url) := by
  unfold find_remote_name_by_url
  apply readOnly_bind readOnly_is_repository
  intro _
  apply readOnly_bind
  · exact readOnly_execCmd _ rfl
  intro out
  split
  · exact readOnly_pure _
  · exact readOnly_throw _

theorem readOnly_get_remote_name (repo : TomlRepo) :
    ReadOnly repo.get_remote_name := by
  unfold TomlRepo.get_remote_name
  split
  · exact readOnly_throw _
  · exact readOnly_find_remote_name _

theorem readOnly_get_remote_ref (repo : TomlRepo) :
    ReadOnly repo.get_remote_ref := by
  unfold TomlRepo.get_remote_ref
  apply readOnly_bind (readOnly_get_remote_name repo)
  intro name
  split
  · exact readOnly_pure _
  · split
    · exact readOnly_pure _
    · split
      · exact readOnly_pure _
      · exact readOnly_throw _

theorem readOnly_get_tracking_branch : ReadOnly get_tracking_branch := by
  unfold get_tracking_branch
  apply readOnly_bind readOnly_is_repository
  intro _
  apply readOnly_bind
  · exact readOnly_execCmd _ rfl
  intro out
  split
  · exact readOnly_pure _
  · exact readOnly_throw _

theorem readOnly_gcbLoop (l : List String) : ReadOnly (gcbLoop l) := by
  induction l with
  | nil => exact readOnly_throw _
  | cons line rest ih =>
    unfold gcbLoop
    apply readOnly_bind
    · exact readOnly_execCmd _ rfl
    intro out
    split
    · exact readOnly_pure _
    · exact ih

theorem readOnly_get_current_branch : ReadOnly get_current_branch := by
  unfold get_current_branch
  apply readOnly_bind readOnly_is_repository
  intro _
  apply readOnly_bind
  · exact readOnly_execCmd _ rfl
  intro out
  exact readOnly_gcbLoop _

theorem readOnly_get_branch_log (branch : String) :
    ReadOnly (get_branch_log branch) := by
  intro env c hc
  unfold get_branch_log at hc
  rcases hre : execCmd ["show-branch", "--sha1-name", branch] env with ⟨r, t⟩
  have ht : t = [["show-branch", "--sha1-name", branch]] := by
    have h2 := execCmd_trace ["show-branch", "--sha1-name", branch] env
    rw [hre] at h2
    exact h2
  rw [hre] at hc
  cases r <;>
    · rw [ht] at hc
      simp only [List.mem_singleton] at hc
      subst hc
      rfl

theorem readOnly_get_untrack_files : ReadOnly get_untrack_files :=
  readOnly_execCmd _ rfl

theorem readOnly_get_changed_files : ReadOnly get_changed_files :=
  readOnly_execCmd _ rfl

theorem readOnly_get_staged_files : ReadOnly get_staged_files :=
  readOnly_execCmd _ rfl

theorem readOnly_get_rev_list_count (p : String) :
    ReadOnly (get_rev_list_count p) :=
  readOnly_execCmd _ rfl

theorem readOnly_local_branch_already_exist (b : String) :
    ReadOnly (local_branch_already_exist b) := by
  unfold local_branch_already_exist
  apply readOnly_bind
  · exact readOnly_execCmd _ rfl
  intro _
  exact readOnly_pure _

theorem readOnly_cmp (repo : TomlRepo) (default_branch : Option String)
    (use_tracking_remote : Bool) :
    ReadOnly (cmp_local_remote repo default_branch use_tracking_remote) := by
  unfold cmp_local_remote
  apply readOnly_bind
  · unfold cmpRemotePair
    split
    · apply readOnly_bind readOnly_get_tracking_branch
      intro s
      exact readOnly_pure _
    · apply readOnly_bind (readOnly_get_remote_ref _)
      intro rr
      exact readOnly_pure _
  · intro pair
    dsimp only
    apply readOnly_ite
    · exact readOnly_pure _
    · apply readOnly_bind (readOnly_attempt readOnly_get_untrack_files)
      intro r1
      dsimp only
      apply readOnly_bind (readOnly_attempt readOnly_get_changed_files)
      intro r2
      dsimp only
      apply readOnly_bind (readOnly_attempt readOnly_get_staged_files)
      intro r3
      dsimp only
      apply readOnly_bind readOnly_get_current_branch
      intro branch
      dsimp only
      apply readOnly_ite
      · exact readOnly_pure _
      · apply readOnly_bind (readOnly_attempt (readOnly_get_rev_list_count _))
        intro rl
        dsimp only
        apply readOnly_ite
        · apply readOnly_bind (readOnly_get_branch_log _)
          intro _
          exact readOnly_pure _
        · exact readOnly_pure _

/-- C9: the comparator only launches inspection commands — file listings,
diffs, branch queries, rev-list, show-branch and rev-parse — and never a
mutating git operation, for every environment and input. -/
theorem cmp_local_remote_read_only (repo : TomlRepo)
    (default_branch : Option String) (use_tracking_remote : Bool)
    (env : GitEnv) :
    ((cmp_local_remote repo default_branch use_tracking_remote env).2).all
      inspectionCmd = true := by
  rw [List.all_eq_true]
  intro c hc
  exact readOnly_cmp repo default_branch use_tracking_remote env c hc

/-! ## C5 — checkout short-circuit, display name, argv policy -/

/-- C5: given a resolved remote ref, the checkout step computes the
branch-display name (`commits/<sha[:7]>`, `tags/<t>`, or the declared
branch); when the current branch already equals it, checkout returns
success having run only inspection commands (no `git checkout`);
otherwise the argv is chosen by (local branch exists, force) as
`checkout -B <b> <ref> --no-track` / the same with `-f` /
`checkout <b>` / `checkout -B <b> -f`, and the outcome is that of the
chosen command. -/
theorem exec_checkout_policy (env : GitEnv) (repo : TomlRepo) (force : Bool)
    (rr : RemoteRef) (hrr : (repo.get_remote_ref env).1 = .ok rr) :
    ((get_current_branch env).1 = .ok (branch_display repo rr) →
      exec_checkout_with_progress repo force env =
        (.ok (), (repo.get_remote_ref env).2 ++ (get_current_branch env).2) ∧
      ((repo.get_remote_ref env).2 ++ (get_current_branch env).2).all
        inspectionCmd = true) ∧
    (∀ exist : Bool,
      (∀ current, (get_current_branch env).1 = .ok current →
        branch_display repo rr ≠ current) →
      (local_branch_already_exist (branch_display repo rr) env).1 = .ok exist →
      exec_checkout_with_progress repo force env =
        ((match env.run (match exist, force with
            | false, false =>
              ["checkout", "-B", branch_display repo rr, remote_ref_string rr,
                "--no-track"]
            | false, true =>
              ["checkout", "-B", branch_display repo rr, remote_ref_string rr,
                "--no-track", "-f"]
            | true, false => ["checkout", branch_display repo rr]
            | true, true =>
              ["checkout", "-B", branch_display repo rr, "-f"]) with
          | .ok _ => Except.ok ()
          | .error e => Except.error (.cmdFailed e)),
         (repo.get_remote_ref env).2 ++ (get_current_branch env).2 ++
           (local_branch_already_exist (branch_display repo rr) env).2 ++
           [(match exist, force with
             | false, false =>
               ["checkout", "-B", branch_display repo rr, remote_ref_string rr,
                 "--no-track"]
             | false, true =>
               ["checkout", "-B", branch_display repo rr, remote_ref_string rr,
                 "--no-track", "-f"]
             | true, false => ["checkout", branch_display repo rr]
             | true, true =>
               ["checkout", "-B", branch_display repo rr, "-f"])])) := by
  rcases hg : repo.get_remote_ref env with ⟨gr, gt⟩
  have hgr : gr = .ok rr := by rw [hg] at hrr; exact hrr
  subst hgr
  rcases hcbe : get_current_branch env with ⟨cr, ct⟩
  constructor
  · intro hcb
    have hcr : cr = .ok (branch_display repo rr) := hcb
    subst hcr
    constructor
    · simp only [exec_checkout_with_progress, bind_run, hg, attempt_run, hcbe,
        pure_run, monad_pure_run]
      simp
    · rw [List.all_eq_true]
      intro c hc
      simp only [List.mem_append] at hc
      rcases hc with h | h
      · exact readOnly_get_remote_ref repo env c (by rw [hg]; exact h)
      · exact readOnly_get_current_branch env c (by rw [hcbe]; exact h)
  · intro exist hne hex
    rcases hle : local_branch_already_exist (branch_display repo rr) env
      with ⟨lr, lt⟩
    have hlr : lr = .ok exist := by rw [hle] at hex; exact hex
    subst hlr
    cases cr with
    | ok current =>
      have hne2 := hne current rfl
      have hbeq := beq_eq_false_iff_ne.mpr hne2
      simp only [exec_checkout_with_progress, bind_run, hg, attempt_run, hcbe,
        hle, pure_run, monad_pure_run, checkout, execCmd_run, hbeq,
        Bool.false_eq_true, if_false]
      cases exist <;> cases force <;>
        · rcases hrun : env.run _ with e | o <;>
            simp [bind_run, execCmd_run, hle, hrun, List.append_assoc]
    | error e =>
      simp only [exec_checkout_with_progress, bind_run, hg, attempt_run, hcbe,
        hle, pure_run, monad_pure_run, checkout, execCmd_run,
        Bool.false_eq_true, if_false]
      cases exist <;> cases force <;>
        · rcases hrun : env.run _ with e2 | o <;>
            simp [bind_run, execCmd_run, hle, hrun, List.append_assoc]

/-- Demo entry for C5: a declared branch `master`. -/
def repoC5 : TomlRepo :=
  ⟨some "foo", some "https://example.com/a.git", some "master", none, none⟩

/-- World for C5: the repository is on `main`, has no local `master`
branch, and the forced-less checkout of `master` succeeds. -/
def envC5 : GitEnv :=
  ⟨fun args =>
    if args = ["rev-parse", "--show-cdup"] then .ok ""
    else if args = ["remote", "-v"] then
      .ok "origin\thttps://example.com/a.git (fetch)"
    else if args = ["branch", "--show-current"] then .ok "main"
    else if args = ["branch", "-l", "main"] then .ok "main"
    else if args = ["branch", "-l", "master"] then .ok ""
    else if args = ["checkout", "-B", "master", "origin/master", "--no-track"]
      then .ok ""
    else .error "", true, true, []⟩

theorem exec_checkout_policy_witness :
    exec_checkout_with_progress repoC5 false envC5 =
      (Except.ok (),
       [["rev-parse", "--show-cdup"], ["remote", "-v"],
        ["rev-parse", "--show-cdup"], ["branch", "--show-current"],
        ["branch", "-l", "main"], ["branch", "-l", "master"],
        ["checkout", "-B", "master", "origin/master", "--no-track"]]) := by
  have hne : ∀ current, (get_current_branch envC5).1 = .ok current →
      branch_display repoC5 (.Branch "origin/master") ≠ current := by
    intro current hcur
    have hm : (get_current_branch envC5).1 = Except.ok "main" := by decide
    rw [hm] at hcur
    injection hcur with h2
    subst h2
    decide
  have h := (exec_checkout_policy envC5 repoC5 false (.Branch "origin/master")
    (by decide)).2 false hne (by decide)
  exact h.trans (by decide)

/-! ## C6 — unknown-revision fragment in the comparator -/

theorem startsWithSeq_self_append (l2 l3 : List Char) :
    startsWithSeq (l2 ++ l3) l2 = true := by
  induction l2 with
  | nil => cases l3 <;> rfl
  | cons c cs ih => simp [startsWithSeq, ih]

theorem listContains_middle (l1 l2 l3 : List Char) :
    listContains (l1 ++ (l2 ++ l3)) l2 = true := by
  unfold listContains
  rw [List.any_eq_true]
  refine ⟨l1.length, ?_, ?_⟩
  · rw [List.mem_range]
    simp [List.length_append]
    omega
  · rw [List.drop_left]
    exact startsWithSeq_self_append l2 l3

theorem strData_append (a b : String) : (a ++ b).data = a.data ++ b.data := by
  rcases a with ⟨l⟩
  rcases b with ⟨m⟩
  rfl

/-- A string appended between two others is contained in the result. -/
theorem strContains_append_middle (s1 s2 s3 : String) :
    strContains (s1 ++ s2 ++ s3) s2 = true := by
  show listContains (s1 ++ s2 ++ s3).data s2.data = true
  have hd : (s1 ++ s2 ++ s3).data = s1.data ++ (s2.data ++ s3.data) := by
    rw [strData_append, strData_append, List.append_assoc]
  rw [hd]
  exact listContains_middle s1.data s2.data s3.data

/-- Demo entry for C6/C7: a declared branch `master`. -/
def repoC6 : TomlRepo :=
  ⟨some "foo", some "https://example.com/a.git", some "master", none, none⟩

/-- World for the C6 counterexample: the rev-list call SUCCEEDS but its
output carries no digits, the working tree is clean and on `master`. -/
def envC6 : GitEnv :=
  ⟨fun args =>
    if args = ["rev-parse", "--show-cdup"] then .ok ""
    else if args = ["remote", "-v"] then
      .ok "origin\thttps://example.com/a.git (fetch)"
    else if args = ["ls-files", ".", "--exclude-standard", "--others"] then .ok ""
    else if args = ["diff", "--name-only"] then .ok ""
    else if args = ["diff", "--cached", "--name-only"] then .ok ""
    else if args = ["branch", "--show-current"] then .ok "master"
    else if args = ["branch", "-l", "master"] then .ok "master"
    else if args = ["rev-list", "--count", "--left-right", "master...origin/master"]
      then .ok "fatal: bad revision"
    else if args = ["show-branch", "--sha1-name", "master"] then .ok "log line"
    else .error "", true, true, []⟩

/-- C6 counterexample: the rev-list driver call succeeds, its output does
not parse as two runs of digits, and yet the produced summary is the
up-to-date message, which contains no "unknown revision" fragment. -/
theorem cmp_unknown_revision_cex :
    envC6.run ["rev-list", "--count", "--left-right", "master...origin/master"] =
      .ok "fatal: bad revision" ∧
    revListCaps "fatal: bad revision" = none ∧
    (cmp_local_remote repoC6 none false envC6).1 =
      .ok (some (fmt_update_to_date_desc "log line")) ∧
    strContains (fmt_update_to_date_desc "log line") "unknown revision" = false := by
  exact ⟨by decide, by decide, by decide, by decide⟩

/-- C6 (amended): the "unknown revision" fragment appears when the
rev-list driver call itself fails; when the call succeeds but its output
does not match `(\d+)\s*(\d+)`, the commit fragment is left empty
instead, so the summary does not carry the fragment through that path. -/
theorem cmp_unknown_revision_on_driver_failure (env : GitEnv)
    (repo : TomlRepo) (default_branch : Option String) (rr : RemoteRef)
    (b e : String)
    (hrr : ((withDefaultBranch repo default_branch).get_remote_ref env).1 =
      .ok rr)
    (hdesc : strIsEmpty (remote_ref_desc rr) = false)
    (hb : (get_current_branch env).1 = .ok b)
    (hbne : strIsEmpty b = false)
    (hrl : env.run
      ["rev-list", "--count", "--left-right", b ++ "..." ++ remote_ref_string rr]
      = .error e) :
    ∃ s, (cmp_local_remote repo default_branch false env).1 = .ok (some s) ∧
      strContains s "unknown revision" = true := by
  rcases hgre : (withDefaultBranch repo default_branch).get_remote_ref env
    with ⟨gr, gt⟩
  have hgr : gr = .ok rr := by rw [hgre] at hrr; exact hrr
  subst hgr
  rcases h1 : get_untrack_files env with ⟨r1, t1⟩
  rcases h2 : get_changed_files env with ⟨r2, t2⟩
  rcases h3 : get_staged_files env with ⟨r3, t3⟩
  rcases hcbe : get_current_branch env with ⟨cr, ct⟩
  have hcr : cr = .ok b := by rw [hcbe] at hb; exact hb
  subst hcr
  have hun : strIsEmpty fmt_unknown_revision_desc = false := by decide
  simp only [cmp_local_remote, cmpRemotePair, Bool.false_eq_true, if_false,
    bind_run, attempt_run, hgre, h1, h2, h3, hcbe, pure_run, monad_pure_run,
    get_rev_list_count, execCmd_run, hrl, hdesc, hbne, hun,
    Bool.false_and]
  refine ⟨_, rfl, ?_⟩
  exact strContains_append_middle (remote_ref_desc rr ++ ": ")
    fmt_unknown_revision_desc _

/-- World for the C6 amended-claim witness: identical to `envC6` except
that the rev-list driver call fails. -/
def envC6b : GitEnv :=
  ⟨fun args =>
    if args = ["rev-parse", "--show-cdup"] then .ok ""
    else if args = ["remote", "-v"] then
      .ok "origin\thttps://example.com/a.git (fetch)"
    else if args = ["ls-files", ".", "--exclude-standard", "--others"] then .ok ""
    else if args = ["diff", "--name-only"] then .ok ""
    else if args = ["diff", "--cached", "--name-only"] then .ok ""
    else if args = ["branch", "--show-current"] then .ok "master"
    else if args = ["branch", "-l", "master"] then .ok "master"
    else .error "unknown revision or path not in the working tree",
    true, true, []⟩

theorem cmp_unknown_revision_on_driver_failure_witness :
    ∃ s, (cmp_local_remote repoC6 none false envC6b).1 = .ok (some s) ∧
      strContains s "unknown revision" = true :=
  cmp_unknown_revision_on_driver_failure envC6b repoC6 none
    (.Branch "origin/master") "master"
    "unknown revision or path not in the working tree"
    (by decide) (by decide) (by decide) (by decide) (by decide)

/-! ## C7 — comparator on a freshly initialized repository -/

/-- World for the C7 counterexample: a freshly initialized repository
(empty `git branch --show-current` output) with a configured remote. -/
def envC7 : GitEnv :=
  ⟨fun args =>
    if args = ["rev-parse", "--show-cdup"] then .ok ""
    else if args = ["remote", "-v"] then
      .ok "origin\thttps://example.com/a.git (fetch)"
    else if args = ["ls-files", ".", "--exclude-standard", "--others"] then .ok ""
    else if args = ["diff", "--name-only"] then .ok ""
    else if args = ["diff", "--cached", "--name-only"] then .ok ""
    else if args = ["branch", "--show-current"] then .ok ""
    else .error "", true, true, []⟩

/-- C7 counterexample: in a freshly initialized repository the
`branch --show-current` output is empty, `get_current_branch` fails with
"current branch not found.", and the comparator propagates that error
instead of returning "init commit". -/
theorem cmp_init_commit_cex :
    envC7.run ["branch", "--show-current"] = .ok "" ∧
    (cmp_local_remote repoC6 none false envC7).1 =
      .error .currentBranchNotFound := by
  exact ⟨by decide, by decide⟩

/-- C7 (amended): the comparator returns "init commit" only when
`get_current_branch` itself returns `Ok` with an empty branch name; in a
freshly initialized repository — where `git branch --show-current`
prints nothing — `get_current_branch` instead fails with
"current branch not found." and the comparator returns that error. -/
theorem cmp_init_commit_amended (env : GitEnv) (repo : TomlRepo)
    (default_branch : Option String) (rr : RemoteRef)
    (hrr : ((withDefaultBranch repo default_branch).get_remote_ref env).1 =
      .ok rr)
    (hdesc : strIsEmpty (remote_ref_desc rr) = false) :
    (∀ out, env.run ["branch", "--show-current"] = .ok out →
      rTrim out.data = [] → (is_repository env).1 = .ok () →
      (cmp_local_remote repo default_branch false env).1 =
        .error .currentBranchNotFound) ∧
    ((get_current_branch env).1 = .ok "" →
      (cmp_local_remote repo default_branch false env).1 =
        .ok (some "init commit")) := by
  rcases hgre : (withDefaultBranch repo default_branch).get_remote_ref env
    with ⟨gr, gt⟩
  have hgr : gr = .ok rr := by rw [hgre] at hrr; exact hrr
  subst hgr
  rcases h1 : get_untrack_files env with ⟨r1, t1⟩
  rcases h2 : get_changed_files env with ⟨r2, t2⟩
  rcases h3 : get_staged_files env with ⟨r3, t3⟩
  constructor
  · intro out hout htrim hir
    rcases hire : is_repository env with ⟨ir, irt⟩
    have hirr : ir = .ok () := by rw [hire] at hir; exact hir
    subst hirr
    have hlines : rustLines (strTrim out) = [] := by
      simp only [strTrim, htrim]
      rfl
    rcases hgcbe : get_current_branch env with ⟨cr, ct⟩
    have hcr : cr = .error .currentBranchNotFound := by
      have hfst : (get_current_branch env).1 = .error .currentBranchNotFound := by
        simp only [get_current_branch, bind_run, hire, execCmd_run, hout,
          hlines]
        rfl
      rw [hgcbe] at hfst
      exact hfst
    subst hcr
    simp only [cmp_local_remote, cmpRemotePair, Bool.false_eq_true, if_false,
      bind_run, attempt_run, hgre, h1, h2, h3, hgcbe, pure_run, monad_pure_run,
      hdesc]
  · intro hgcb1
    rcases hgcbe : get_current_branch env with ⟨cr, ct⟩
    have hcr : cr = .ok "" := by rw [hgcbe] at hgcb1; exact hgcb1
    subst hcr
    simp only [cmp_local_remote, cmpRemotePair, Bool.false_eq_true, if_false,
      bind_run, attempt_run, hgre, h1, h2, h3, hgcbe, pure_run, monad_pure_run,
      hdesc]
    rfl

/-- World for the second half of the C7 amended claim: an environment in
which `get_current_branch` returns `Ok` with an empty name, through an
interior empty line of the `branch --show-current` output. -/
def envC7b : GitEnv :=
  ⟨fun args =>
    if args = ["rev-parse", "--show-cdup"] then .ok ""
    else if args = ["remote", "-v"] then
      .ok "origin\thttps://example.com/a.git (fetch)"
    else if args = ["ls-files", ".", "--exclude-standard", "--others"] then .ok ""
    else if args = ["diff", "--name-only"] then .ok ""
    else if args = ["diff", "--cached", "--name-only"] then .ok ""
    else if args = ["branch", "--show-current"] then .ok "a\n\nb"
    else if args = ["branch", "-l", "a"] then .ok ""
    else if args = ["branch", "-l", ""] then .ok "x"
    else .error "", true, true, []⟩

theorem cmp_init_commit_amended_witness :
    (cmp_local_remote repoC6 none false envC7).1 =
      .error .currentBranchNotFound ∧
    (cmp_local_remote repoC6 none false envC7b).1 = .ok (some "init commit") :=
  ⟨(cmp_init_commit_amended envC7 repoC6 none (.Branch "origin/master")
      (by decide) (by decide)).1 "" (by decide) (by decide) (by decide),
    (cmp_init_commit_amended envC7b repoC6 none (.Branch "origin/master")
      (by decide) (by decide)).2 (by decide)⟩

end Mgit
